import Mathlib

/-!
Verification of the journal repository core against its specification.

The development shallowly embeds the two algorithmic subsystems:

* the TODO carry-forward extractor of `src/todo.rs` (`FindTodos`), modelled
  as a fold over a stream of parsed-markdown events paired with the byte
  range they cover (ranges are abstracted to natural-number identifiers:
  the extractor only ever stores and returns ranges, resolving them
  against the source text at the very end), and

* the reminder engine of `src/reminders.rs`, with calendar dates modelled
  as Julian day numbers (the `time` crate represents a civil date and
  exposes the bijection `to_julian_day`; Julian day 0 falls on a Monday),
  plus a year/month/day view (`CalDate`) for the date-construction logic.

Rust machine integers are modelled as `Nat`/`Int` with explicit wrapping
where overflow is reachable; Rust panics (`unwrap`, `expect`, arithmetic
overflow in checked builds, `%` by zero) are modelled by `Option`/`PanicOr`
result types where a claim depends on them.
-/

namespace Journal

/-! ## Markdown events (input of the TodoExtractor)

`pulldown_cmark` feeds `FindTodos` a stream of events; the extractor
inspects only heading start/end, item start/end, text and task-list
markers, and the byte range attached to each event.  Heading levels are
abstracted to their numeric level (2 = H2). -/

/-- A byte-range identifier, standing for the `Range<usize>` that
`pulldown_cmark`'s offset iterator attaches to an event. -/
abbrev Rng := Nat

/-- The markdown events distinguished by `src/todo.rs`; every event the
source ignores is representable via `other` (or is simply matched by the
catch-all arms below). -/
inductive Ev where
  | headingStart : Nat → Ev
  | headingEnd : Nat → Ev
  | text : String → Ev
  | listStart : Ev
  | listEnd : Ev
  | itemStart : Ev
  | itemEnd : Ev
  | taskMarker : Bool → Ev
  | other : Ev
  deriving DecidableEq, Repr

/-- `enum State` of `FindTodos` in `src/todo.rs`. -/
inductive State where
  | Initial
  | GettingTodos
  | Done
  deriving DecidableEq, Repr

/-! ## Phase B: `FindTodos::gather_open_todos`

The loop in `src/todo.rs` lines 74-123 keeps four mutable locals
(`found_top_level_item`, `range_of_todo_item`, `depth`, `todos`) and
breaks out (setting `self.state = State::Done`) on the first heading
start.  We model the loop as a fold over the event list; the `finished`
flag records that the `break` fired, and once set it absorbs every
further event, which is extensionally the same as breaking. -/

structure GatherSt where
  found : Bool
  pending : Option Rng
  depth : Int
  todos : List Rng
  finished : Bool
  deriving DecidableEq, Repr

def gatherInit : GatherSt :=
  { found := false, pending := none, depth := 0, todos := [], finished := false }

/-- One iteration of the `gather_open_todos` loop.  The `taskMarker` arm
pushes `range_of_todo_item.take().unwrap()`; the `unwrap` can only be
reached with `pending = some r` (the flag `found` is set exactly when a
range was just stored, see `gather_found_pending` below), so the `getD`
default is never consulted from the initial state. -/
def gatherStep (s : GatherSt) (er : Ev × Rng) : GatherSt :=
  if s.finished then s else
  match er.1 with
  | .headingStart _ => { s with finished := true }
  | .itemStart =>
    if s.depth = 0 then
      { s with depth := s.depth + 1, found := true, pending := some er.2 }
    else
      { s with depth := s.depth + 1 }
  | .itemEnd => { s with depth := s.depth - 1 }
  | .taskMarker done =>
    if s.found then
      if done then { s with found := false }
      else { s with found := false, pending := none,
                    todos := s.todos ++ [s.pending.getD 0] }
    else s
  | _ => s

def gatherFold (s : GatherSt) (evs : List (Ev × Rng)) : GatherSt :=
  evs.foldl gatherStep s

/-- Running `gather_open_todos` from its initial state. -/
def gatherRun (evs : List (Ev × Rng)) : GatherSt :=
  gatherFold gatherInit evs

/-- The list of ranges `gather_open_todos` returns. -/
def gatherTodos (evs : List (Ev × Rng)) : List Rng :=
  (gatherRun evs).todos

theorem gatherFold_append (s : GatherSt) (a b : List (Ev × Rng)) :
    gatherFold s (a ++ b) = gatherFold (gatherFold s a) b :=
  List.foldl_append ..

theorem gatherStep_finished {s : GatherSt} (h : s.finished = true) (er : Ev × Rng) :
    gatherStep s er = s := by
  simp [gatherStep, h]

theorem gatherFold_finished {s : GatherSt} (h : s.finished = true) (evs : List (Ev × Rng)) :
    gatherFold s evs = s := by
  induction evs with
  | nil => rfl
  | cons e rest ih => rw [gatherFold, List.foldl_cons, gatherStep_finished h, ← gatherFold]; exact ih

/-- C6 helper: stepping an unfinished state over a heading start only sets
the `finished` flag (the source sets `state = Done` and breaks). -/
theorem gatherStep_headingStart {s : GatherSt} (h : s.finished = false)
    (lv : Nat) (r : Rng) :
    gatherStep s (Ev.headingStart lv, r) = { s with finished := true } := by
  simp [gatherStep, h]

/-- C1/C2 invariant: from the initial state, whenever the
`found_top_level_item` flag is set, a candidate range is pending, so the
`unwrap` inside the task-marker arm cannot panic. -/
theorem gather_found_pending (evs : List (Ev × Rng)) :
    (gatherRun evs).found = true → (gatherRun evs).pending ≠ none := by
  suffices h : ∀ (s : GatherSt), (s.found = true → s.pending ≠ none) →
      ∀ evs, (gatherFold s evs).found = true → (gatherFold s evs).pending ≠ none by
    exact h gatherInit (by intro h; simp [gatherInit] at h) evs
  intro s hs evs
  induction evs generalizing s with
  | nil => exact hs
  | cons e rest ih =>
    rw [gatherFold, List.foldl_cons, ← gatherFold]
    apply ih
    by_cases hf : s.finished = true
    · rw [gatherStep_finished hf]; exact hs
    · replace hf : s.finished = false := by simpa using hf
      rcases e with ⟨ev, r⟩
      cases ev with
      | headingStart lv => simpa [gatherStep, hf] using hs
      | headingEnd lv => simpa [gatherStep, hf] using hs
      | text t => simpa [gatherStep, hf] using hs
      | listStart => simpa [gatherStep, hf] using hs
      | listEnd => simpa [gatherStep, hf] using hs
      | other => simpa [gatherStep, hf] using hs
      | itemEnd => simpa [gatherStep, hf] using hs
      | itemStart =>
        by_cases hd : s.depth = 0 <;> simp [gatherStep, hf, hd]
        exact fun h => hs h
      | taskMarker done =>
        by_cases hfound : s.found = true
        · cases done <;> simp [gatherStep, hf, hfound]
        · have hfound2 : s.found = false := by simp at hfound; exact hfound
          simp [gatherStep, hf, hfound2]

/-- C6: once the extractor is collecting, the first heading-start event of
any level freezes the run: the final state is the pre-heading state with
`state = Done` (`finished := true`), so nothing at or after the heading is
ever captured.  (If `pre` itself already contains a heading start, both
sides stopped even earlier and the equation still holds.) -/
theorem c6_heading_terminates_collection (pre post : List (Ev × Rng)) (lv : Nat) (r : Rng) :
    gatherRun (pre ++ (Ev.headingStart lv, r) :: post)
      = { gatherRun pre with finished := true }
    ∧ gatherTodos (pre ++ (Ev.headingStart lv, r) :: post) = gatherTodos pre := by
  have hmain : gatherRun (pre ++ (Ev.headingStart lv, r) :: post)
      = { gatherRun pre with finished := true } := by
    rw [gatherRun, gatherFold_append]
    rw [show gatherFold gatherInit pre = gatherRun pre from rfl]
    rw [show ((Ev.headingStart lv, r) :: post : List (Ev × Rng))
          = [(Ev.headingStart lv, r)] ++ post from rfl]
    rw [gatherFold_append]
    by_cases hf : (gatherRun pre).finished = true
    · rw [show gatherFold (gatherRun pre) [(Ev.headingStart lv, r)]
            = gatherStep (gatherRun pre) (Ev.headingStart lv, r) from rfl]
      rw [gatherStep_finished hf, gatherFold_finished hf]
      cases h : gatherRun pre
      simp_all
    · replace hf : (gatherRun pre).finished = false := by simpa using hf
      rw [show gatherFold (gatherRun pre) [(Ev.headingStart lv, r)]
            = gatherStep (gatherRun pre) (Ev.headingStart lv, r) from rfl]
      rw [gatherStep_headingStart hf]
      exact gatherFold_finished rfl post
  exact ⟨hmain, by rw [gatherTodos, hmain, gatherTodos]⟩

/-! ## Phase A: `find_todo_section`

`find_todo_section` (src/todo.rs lines 150-180) scans events with a small
state (`TodoHeader`): any H2 heading start arms `Found`; a text event equal
to `"TODOs"` while `Found` arms `ProcessedTitle`; an H2 heading end while
`ProcessedTitle` returns `true` immediately.  We add an absorbing
`success` state for the early `return true`. -/

inductive SearchSt where
  | notFound
  | found
  | processedTitle
  | success
  deriving DecidableEq, Repr

/-- One event of the `find_todo_section` scan.  Mirrors the source match:
the heading-start arm fires for H2 only (other levels fall to the ignore
arm), the text arm only from `Found` (and leaves the state on `Found` when
the title does not match), the heading-end arm only from `ProcessedTitle`
and for H2. -/
def searchStep (s : SearchSt) (e : Ev) : SearchSt :=
  if s = .success then .success else
  match e, s with
  | .headingStart lv, _ => if lv = 2 then .found else s
  | .text t, .found => if t = "TODOs" then .processedTitle else .found
  | .headingEnd lv, .processedTitle => if lv = 2 then .success else s
  | _, _ => s

def searchFold (s : SearchSt) (evs : List (Ev × Rng)) : SearchSt :=
  evs.foldl (fun s e => searchStep s e.1) s

/-- `find_todo_section` consumes the iterator up to and including the event
whose processing returned `true`; `process` then runs
`gather_open_todos` on the remaining events.  `none` models the scan
running off the end of the stream (the function returning `false`). -/
def searchConsume : SearchSt → List (Ev × Rng) → Option (List (Ev × Rng))
  | _, [] => none
  | s, e :: rest =>
    let s2 := searchStep s e.1
    if s2 = .success then some rest else searchConsume s2 rest

/-- `FindTodos::process` (src/todo.rs lines 125-147): locate the TODOs
section, and if absent return no todos with state `Done`; otherwise gather
open todos from the rest of the stream (final state `Done` exactly when the
gather loop broke on a heading).  The returned ranges are resolved against
the source string by the caller; no error is possible (the function's
result type carries no error case, matching `Vec<String>`). -/
def processEvents (evs : List (Ev × Rng)) : List Rng × State :=
  match searchConsume .notFound evs with
  | none => ([], State.Done)
  | some rest =>
    let g := gatherRun rest
    (g.todos, if g.finished then State.Done else State.GettingTodos)

/-! ## Markdown documents

The claims quantify over markdown documents/event streams produced by
`pulldown_cmark`.  We model a document as a list of blocks; a checklist
forest is a list of items, each carrying the byte range of its full span,
an optional task marker (`none` for a plain bullet) and nested children.
`pulldown_cmark` linearizes an item as: `Start(Item)` (whose range covers
the whole item including nested content), then the task marker if the item
has one, then the item text, then — when children exist — a nested
`Start(List) … End(List)` around the children, then `End(Item)`.
Events whose ranges the extractor never reads carry range 0. -/

inductive MdItem where
  | node : Rng → Option Bool → String → List MdItem → MdItem

def MdItem.rng : MdItem → Rng
  | .node r _ _ _ => r

def MdItem.marker : MdItem → Option Bool
  | .node _ m _ _ => m

def MdItem.children : MdItem → List MdItem
  | .node _ _ _ cs => cs

/-- Events of a task marker field. -/
def markerEvents : Option Bool → List (Ev × Rng)
  | some d => [(Ev.taskMarker d, 0)]
  | none => []

mutual

def itemEvents : MdItem → List (Ev × Rng)
  | .node r m t cs =>
    [(Ev.itemStart, r)] ++ markerEvents m ++ [(Ev.text t, 0)]
      ++ (match cs with
          | [] => []
          | _ :: _ => [(Ev.listStart, 0)] ++ forestEvents cs ++ [(Ev.listEnd, 0)])
      ++ [(Ev.itemEnd, 0)]

def forestEvents : List MdItem → List (Ev × Rng)
  | [] => []
  | i :: is => itemEvents i ++ forestEvents is

end

/-- The events of a checklist section body: one top-level list. -/
def topEvents (its : List MdItem) : List (Ev × Rng) :=
  [(Ev.listStart, 0)] ++ forestEvents its ++ [(Ev.listEnd, 0)]

mutual

/-- The first task marker in document (preorder) position within an item:
its own marker if present, else the first marker among its descendants. -/
def itemFirstMarker : MdItem → Option Bool
  | .node _ (some d) _ _ => some d
  | .node _ none _ cs => forestFirstMarker cs

def forestFirstMarker : List MdItem → Option Bool
  | [] => none
  | i :: is =>
    match itemFirstMarker i with
    | some d => some d
    | none => forestFirstMarker is

end

mutual

/-- All ranges occurring in an item: its own plus its descendants'. -/
def itemRanges : MdItem → List Rng
  | .node r _ _ cs => r :: forestRanges cs

def forestRanges : List MdItem → List Rng
  | [] => []
  | i :: is => itemRanges i ++ forestRanges is

end

/-- Characterisation of what `gather_open_todos` emits for one top-level
item (proved below): its range, exactly when the first task marker at or
under it is an open one. -/
def emitTop (it : MdItem) : Option Rng :=
  if itemFirstMarker it = some false then some it.rng else none

/-- A document block: a heading with its level and the list of its title
text fragments, a paragraph, or a (task) list.  `pulldown_cmark` emits one
`Text` event per inline fragment of a heading title: a plain title is a
single fragment, while inline markup splits it — `## *a*TODOs` (title text
`aTODOs`) arrives as `Text "a"` and `Text "TODOs"` around the emphasis.
The delimiter events of inline markup and of paragraphs match no arm of
either extractor phase; they are rendered as `Ev.other`. -/
inductive Block where
  | heading : Nat → List String → Block
  | para : List String → Block
  | list : List MdItem → Block

/-- The events of a heading title: one `Text` event per fragment, each
surrounded by the (ignored) inline-markup delimiter events. -/
def fragEvents : List String → List (Ev × Rng)
  | [] => []
  | t :: ts => [(Ev.other, 0), (Ev.text t, 0), (Ev.other, 0)] ++ fragEvents ts

def blockEvents : Block → List (Ev × Rng)
  | .heading lv ts => [(Ev.headingStart lv, 0)] ++ fragEvents ts ++ [(Ev.headingEnd lv, 0)]
  | .para ts => [(Ev.other, 0)] ++ ts.map (fun t => (Ev.text t, 0)) ++ [(Ev.other, 0)]
  | .list its => topEvents its

def docEvents : List Block → List (Ev × Rng)
  | [] => []
  | b :: bs => blockEvents b ++ docEvents bs

/-! ### Single-step facts about `gather_open_todos` -/

theorem gatherStep_text {s : GatherSt} (h : s.finished = false) (t : String) (r : Rng) :
    gatherStep s (Ev.text t, r) = s := by simp [gatherStep, h]

theorem gatherStep_listStart {s : GatherSt} (h : s.finished = false) (r : Rng) :
    gatherStep s (Ev.listStart, r) = s := by simp [gatherStep, h]

theorem gatherStep_listEnd {s : GatherSt} (h : s.finished = false) (r : Rng) :
    gatherStep s (Ev.listEnd, r) = s := by simp [gatherStep, h]

theorem gatherStep_itemStart_zero {s : GatherSt} (h : s.finished = false)
    (hd : s.depth = 0) (r : Rng) :
    gatherStep s (Ev.itemStart, r)
      = { s with depth := s.depth + 1, found := true, pending := some r } := by
  simp [gatherStep, h, hd]

theorem gatherStep_itemStart_pos {s : GatherSt} (h : s.finished = false)
    (hd : ¬ s.depth = 0) (r : Rng) :
    gatherStep s (Ev.itemStart, r) = { s with depth := s.depth + 1 } := by
  simp [gatherStep, h, hd]

theorem gatherStep_itemEnd {s : GatherSt} (h : s.finished = false) (r : Rng) :
    gatherStep s (Ev.itemEnd, r) = { s with depth := s.depth - 1 } := by
  simp [gatherStep, h]

theorem gatherStep_marker_unarmed {s : GatherSt} (h : s.finished = false)
    (hfo : s.found = false) (done : Bool) (r : Rng) :
    gatherStep s (Ev.taskMarker done, r) = s := by
  simp [gatherStep, h, hfo]

theorem gatherStep_marker_done {s : GatherSt} (h : s.finished = false)
    (hfo : s.found = true) (r : Rng) :
    gatherStep s (Ev.taskMarker true, r) = { s with found := false } := by
  simp [gatherStep, h, hfo]

theorem gatherStep_marker_open {s : GatherSt} (h : s.finished = false)
    (hfo : s.found = true) (r : Rng) :
    gatherStep s (Ev.taskMarker false, r)
      = { s with found := false, pending := none,
                 todos := s.todos ++ [s.pending.getD 0] } := by
  simp [gatherStep, h, hfo]

theorem gatherFold_markerEvents_unarmed {s : GatherSt} (h : s.finished = false)
    (hfo : s.found = false) (m : Option Bool) :
    gatherFold s (markerEvents m) = s := by
  cases m with
  | none => rfl
  | some d => simp [markerEvents, gatherFold, gatherStep, h, hfo]

/-! ### The gather loop on whole item forests

Three fold lemmas, by mutual induction on the forest:

* `itemFoldA`/`forestFoldA` — at nesting depth ≥ 1 with the candidate flag
  clear, item events are pure depth bookkeeping: the state is unchanged.
* `itemFoldB`/`forestFoldB` — at nesting depth ≥ 1 with the candidate flag
  set, the first task marker in document order decides everything: an open
  marker emits the pending top-level range, a done marker silently clears
  the flag, and in both cases the rest of the forest is inert.
* `itemFoldC` — a whole top-level item processed from depth 0 appends
  exactly `emitTop` of the item to the accumulated todos. -/

mutual

theorem itemFoldA : ∀ (it : MdItem) (s : GatherSt),
    s.finished = false → s.found = false → 1 ≤ s.depth →
    gatherFold s (itemEvents it) = s
  | .node r m t cs, s, hfin, hfo, hdep => by
    have hd0 : ¬ s.depth = 0 := by omega
    simp only [itemEvents]
    rw [gatherFold_append, gatherFold_append, gatherFold_append, gatherFold_append]
    rw [show gatherFold s [(Ev.itemStart, r)] = gatherStep s (Ev.itemStart, r) from rfl,
        gatherStep_itemStart_pos hfin hd0]
    rw [gatherFold_markerEvents_unarmed (by simpa using hfin) (by simpa using hfo)]
    rw [show gatherFold { s with depth := s.depth + 1 } [(Ev.text t, 0)]
          = gatherStep { s with depth := s.depth + 1 } (Ev.text t, 0) from rfl,
        gatherStep_text (by simpa using hfin)]
    have hcs : gatherFold { s with depth := s.depth + 1 }
        (match cs with
         | [] => ([] : List (Ev × Rng))
         | _ :: _ => [(Ev.listStart, 0)] ++ forestEvents cs ++ [(Ev.listEnd, 0)])
        = { s with depth := s.depth + 1 } := by
      match cs with
      | [] => rfl
      | c :: cs2 =>
        rw [gatherFold_append, gatherFold_append]
        rw [show gatherFold { s with depth := s.depth + 1 } [(Ev.listStart, 0)]
              = gatherStep { s with depth := s.depth + 1 } (Ev.listStart, 0) from rfl,
            gatherStep_listStart (by simpa using hfin)]
        rw [forestFoldA (c :: cs2) _ (by simpa using hfin) (by simpa using hfo)
              (by simp; omega)]
        rw [show gatherFold { s with depth := s.depth + 1 } [(Ev.listEnd, 0)]
              = gatherStep { s with depth := s.depth + 1 } (Ev.listEnd, 0) from rfl,
            gatherStep_listEnd (by simpa using hfin)]
    rw [hcs]
    rw [show gatherFold { s with depth := s.depth + 1 } [(Ev.itemEnd, 0)]
          = gatherStep { s with depth := s.depth + 1 } (Ev.itemEnd, 0) from rfl,
        gatherStep_itemEnd (by simpa using hfin)]
    cases s
    simp

theorem forestFoldA : ∀ (its : List MdItem) (s : GatherSt),
    s.finished = false → s.found = false → 1 ≤ s.depth →
    gatherFold s (forestEvents its) = s
  | [], _, _, _, _ => rfl
  | i :: is, s, hfin, hfo, hdep => by
    rw [forestEvents, gatherFold_append, itemFoldA i s hfin hfo hdep,
        forestFoldA is s hfin hfo hdep]

end

/-- The state produced by the first task marker while the candidate flag is
set: a done marker merely clears the flag, an open marker emits the
pending range; `none` (no marker anywhere) leaves the state alone. -/
def afterMarker (s : GatherSt) : Option Bool → GatherSt
  | none => s
  | some true => { s with found := false }
  | some false => { s with found := false, pending := none, todos := s.todos ++ [s.pending.getD 0] }

mutual

theorem itemFoldB : ∀ (it : MdItem) (s : GatherSt),
    s.finished = false → s.found = true → 1 ≤ s.depth →
    gatherFold s (itemEvents it) = afterMarker s (itemFirstMarker it)
  | .node r m t cs, s, hfin, hfo, hdep => by
    have hd0 : ¬ s.depth = 0 := by omega
    simp only [itemEvents]
    rw [gatherFold_append, gatherFold_append, gatherFold_append, gatherFold_append]
    rw [show gatherFold s [(Ev.itemStart, r)] = gatherStep s (Ev.itemStart, r) from rfl,
        gatherStep_itemStart_pos hfin hd0]
    cases m with
    | some d =>
      have hstep : gatherFold { s with depth := s.depth + 1 } (markerEvents (some d))
          = afterMarker { s with depth := s.depth + 1 } (some d) := by
        cases d <;>
          simp [markerEvents, gatherFold, gatherStep, afterMarker, hfin, hfo]
      rw [hstep]
      have hfin2 : (afterMarker { s with depth := s.depth + 1 } (some d)).finished = false := by
        cases d <;> simp [afterMarker, hfin]
      have hfo2 : (afterMarker { s with depth := s.depth + 1 } (some d)).found = false := by
        cases d <;> simp [afterMarker]
      have hdep2 : 1 ≤ (afterMarker { s with depth := s.depth + 1 } (some d)).depth := by
        cases d <;> simp [afterMarker] <;> omega
      rw [show gatherFold (afterMarker { s with depth := s.depth + 1 } (some d)) [(Ev.text t, 0)]
            = gatherStep (afterMarker { s with depth := s.depth + 1 } (some d)) (Ev.text t, 0)
          from rfl,
          gatherStep_text hfin2]
      have hcs : gatherFold (afterMarker { s with depth := s.depth + 1 } (some d))
          (match cs with
           | [] => ([] : List (Ev × Rng))
           | _ :: _ => [(Ev.listStart, 0)] ++ forestEvents cs ++ [(Ev.listEnd, 0)])
          = afterMarker { s with depth := s.depth + 1 } (some d) := by
        match cs with
        | [] => rfl
        | c :: cs2 =>
          rw [gatherFold_append, gatherFold_append]
          rw [show gatherFold (afterMarker { s with depth := s.depth + 1 } (some d)) [(Ev.listStart, 0)]
                = gatherStep (afterMarker { s with depth := s.depth + 1 } (some d)) (Ev.listStart, 0)
              from rfl,
              gatherStep_listStart hfin2]
          rw [forestFoldA (c :: cs2) _ hfin2 hfo2 hdep2]
          rw [show gatherFold (afterMarker { s with depth := s.depth + 1 } (some d)) [(Ev.listEnd, 0)]
                = gatherStep (afterMarker { s with depth := s.depth + 1 } (some d)) (Ev.listEnd, 0)
              from rfl,
              gatherStep_listEnd hfin2]
      rw [hcs]
      rw [show gatherFold (afterMarker { s with depth := s.depth + 1 } (some d)) [(Ev.itemEnd, 0)]
            = gatherStep (afterMarker { s with depth := s.depth + 1 } (some d)) (Ev.itemEnd, 0)
          from rfl,
          gatherStep_itemEnd hfin2]
      simp only [itemFirstMarker]
      cases d <;> cases s <;> simp [afterMarker]
    | none =>
      rw [show gatherFold { s with depth := s.depth + 1 } (markerEvents none)
            = { s with depth := s.depth + 1 } from rfl]
      rw [show gatherFold { s with depth := s.depth + 1 } [(Ev.text t, 0)]
            = gatherStep { s with depth := s.depth + 1 } (Ev.text t, 0) from rfl,
          gatherStep_text (by simpa using hfin)]
      cases cs with
      | nil =>
        dsimp only
        rw [show gatherFold { s with depth := s.depth + 1 } ([] : List (Ev × Rng))
              = { s with depth := s.depth + 1 } from rfl]
        rw [show gatherFold { s with depth := s.depth + 1 } [(Ev.itemEnd, 0)]
              = gatherStep { s with depth := s.depth + 1 } (Ev.itemEnd, 0) from rfl,
            gatherStep_itemEnd (by simpa using hfin)]
        simp only [itemFirstMarker, forestFirstMarker, afterMarker]
        cases s
        simp
      | cons c cs2 =>
        dsimp only
        rw [gatherFold_append, gatherFold_append]
        rw [show gatherFold { s with depth := s.depth + 1 } [(Ev.listStart, 0)]
              = gatherStep { s with depth := s.depth + 1 } (Ev.listStart, 0) from rfl,
            gatherStep_listStart (by simpa using hfin)]
        rw [forestFoldB (c :: cs2) { s with depth := s.depth + 1 }
              (by simpa using hfin) (by simpa using hfo) (by simp; omega)]
        have hfin2 : (afterMarker { s with depth := s.depth + 1 }
            (forestFirstMarker (c :: cs2))).finished = false := by
          cases hm : forestFirstMarker (c :: cs2) with
          | none => simp [afterMarker, hfin]
          | some d => cases d <;> simp [afterMarker, hfin]
        rw [show gatherFold (afterMarker { s with depth := s.depth + 1 } (forestFirstMarker (c :: cs2))) [(Ev.listEnd, 0)]
              = gatherStep (afterMarker { s with depth := s.depth + 1 } (forestFirstMarker (c :: cs2))) (Ev.listEnd, 0)
            from rfl,
            gatherStep_listEnd hfin2]
        rw [show gatherFold (afterMarker { s with depth := s.depth + 1 } (forestFirstMarker (c :: cs2))) [(Ev.itemEnd, 0)]
              = gatherStep (afterMarker { s with depth := s.depth + 1 } (forestFirstMarker (c :: cs2))) (Ev.itemEnd, 0)
            from rfl,
            gatherStep_itemEnd hfin2]
        simp only [itemFirstMarker]
        cases hm : forestFirstMarker (c :: cs2) with
        | none => cases s; simp [afterMarker]
        | some d => cases d <;> cases s <;> simp [afterMarker]

theorem forestFoldB : ∀ (its : List MdItem) (s : GatherSt),
    s.finished = false → s.found = true → 1 ≤ s.depth →
    gatherFold s (forestEvents its) = afterMarker s (forestFirstMarker its)
  | [], _, _, _, _ => rfl
  | i :: is, s, hfin, hfo, hdep => by
    rw [forestEvents, gatherFold_append, itemFoldB i s hfin hfo hdep]
    cases hm : itemFirstMarker i with
    | none =>
      rw [show afterMarker s none = s from rfl,
          forestFoldB is s hfin hfo hdep]
      simp only [forestFirstMarker, hm]
    | some d =>
      have hfin2 : (afterMarker s (some d)).finished = false := by
        cases d <;> simp [afterMarker, hfin]
      have hfo2 : (afterMarker s (some d)).found = false := by
        cases d <;> simp [afterMarker]
      have hdep2 : 1 ≤ (afterMarker s (some d)).depth := by
        cases d <;> simp [afterMarker] <;> omega
      rw [forestFoldA is _ hfin2 hfo2 hdep2]
      simp only [forestFirstMarker, hm]

end

theorem itemFoldC (it : MdItem) (s : GatherSt)
    (hfin : s.finished = false) (hd : s.depth = 0) :
    gatherFold s (itemEvents it)
      = { s with found := (itemFirstMarker it).isNone,
                 pending := (if itemFirstMarker it = some false then none else some it.rng),
                 todos := s.todos ++ (emitTop it).toList } := by
  obtain ⟨r, m, t, cs⟩ := it
  simp only [itemEvents]
  rw [gatherFold_append, gatherFold_append, gatherFold_append, gatherFold_append]
  rw [show gatherFold s [(Ev.itemStart, r)] = gatherStep s (Ev.itemStart, r) from rfl,
      gatherStep_itemStart_zero hfin hd]
  have hfinX : ({ s with depth := s.depth + 1, found := true, pending := some r } : GatherSt).finished = false := by
    simpa using hfin
  have hfoX : ({ s with depth := s.depth + 1, found := true, pending := some r } : GatherSt).found = true := by
    simp
  have hdepX : 1 ≤ ({ s with depth := s.depth + 1, found := true, pending := some r } : GatherSt).depth := by
    simp; omega
  have hmarker : gatherFold { s with depth := s.depth + 1, found := true, pending := some r } (markerEvents m)
      = afterMarker { s with depth := s.depth + 1, found := true, pending := some r } m := by
    cases m with
    | none => rfl
    | some d =>
      cases d <;>
        simp [markerEvents, gatherFold, gatherStep, afterMarker, hfin]
  rw [hmarker]
  have hfinY : ∀ o, (afterMarker { s with depth := s.depth + 1, found := true, pending := some r } o).finished = false := by
    intro o
    rcases o with _ | d
    · simpa [afterMarker] using hfin
    · cases d <;> simp [afterMarker, hfin]
  have hdepY : ∀ o, 1 ≤ (afterMarker { s with depth := s.depth + 1, found := true, pending := some r } o).depth := by
    intro o
    rcases o with _ | d
    · simp [afterMarker]; omega
    · cases d <;> simp [afterMarker] <;> omega
  rw [show gatherFold (afterMarker { s with depth := s.depth + 1, found := true, pending := some r } m) [(Ev.text t, 0)]
        = gatherStep (afterMarker { s with depth := s.depth + 1, found := true, pending := some r } m) (Ev.text t, 0)
      from rfl,
      gatherStep_text (hfinY m)]
  cases m with
  | some d =>
    have hfoY : (afterMarker { s with depth := s.depth + 1, found := true, pending := some r } (some d)).found = false := by
      cases d <;> simp [afterMarker]
    have hcs : gatherFold (afterMarker { s with depth := s.depth + 1, found := true, pending := some r } (some d))
        (match cs with
         | [] => ([] : List (Ev × Rng))
         | _ :: _ => [(Ev.listStart, 0)] ++ forestEvents cs ++ [(Ev.listEnd, 0)])
        = afterMarker { s with depth := s.depth + 1, found := true, pending := some r } (some d) := by
      match cs with
      | [] => rfl
      | c :: cs2 =>
        rw [gatherFold_append, gatherFold_append]
        rw [show gatherFold (afterMarker { s with depth := s.depth + 1, found := true, pending := some r } (some d)) [(Ev.listStart, 0)]
              = gatherStep (afterMarker { s with depth := s.depth + 1, found := true, pending := some r } (some d)) (Ev.listStart, 0)
            from rfl,
            gatherStep_listStart (hfinY (some d))]
        rw [forestFoldA (c :: cs2) _ (hfinY (some d)) hfoY (hdepY (some d))]
        rw [show gatherFold (afterMarker { s with depth := s.depth + 1, found := true, pending := some r } (some d)) [(Ev.listEnd, 0)]
              = gatherStep (afterMarker { s with depth := s.depth + 1, found := true, pending := some r } (some d)) (Ev.listEnd, 0)
            from rfl,
            gatherStep_listEnd (hfinY (some d))]
    rw [hcs]
    rw [show gatherFold (afterMarker { s with depth := s.depth + 1, found := true, pending := some r } (some d)) [(Ev.itemEnd, 0)]
          = gatherStep (afterMarker { s with depth := s.depth + 1, found := true, pending := some r } (some d)) (Ev.itemEnd, 0)
        from rfl,
        gatherStep_itemEnd (hfinY (some d))]
    simp only [itemFirstMarker, emitTop, MdItem.rng]
    cases d <;> cases s <;> simp_all [afterMarker, itemFirstMarker]
  | none =>
    cases cs with
    | nil =>
      dsimp only
      rw [show gatherFold (afterMarker { s with depth := s.depth + 1, found := true, pending := some r } none) ([] : List (Ev × Rng))
            = afterMarker { s with depth := s.depth + 1, found := true, pending := some r } none from rfl]
      rw [show gatherFold (afterMarker { s with depth := s.depth + 1, found := true, pending := some r } none) [(Ev.itemEnd, 0)]
            = gatherStep (afterMarker { s with depth := s.depth + 1, found := true, pending := some r } none) (Ev.itemEnd, 0)
          from rfl,
          gatherStep_itemEnd (hfinY none)]
      simp only [itemFirstMarker, forestFirstMarker, emitTop, MdItem.rng, afterMarker]
      cases s
      simp_all [itemFirstMarker, forestFirstMarker, emitTop]
    | cons c cs2 =>
      dsimp only
      rw [show afterMarker { s with depth := s.depth + 1, found := true, pending := some r } none
            = { s with depth := s.depth + 1, found := true, pending := some r } from rfl]
      rw [gatherFold_append, gatherFold_append]
      rw [show gatherFold { s with depth := s.depth + 1, found := true, pending := some r } [(Ev.listStart, 0)]
            = gatherStep { s with depth := s.depth + 1, found := true, pending := some r } (Ev.listStart, 0)
          from rfl,
          gatherStep_listStart hfinX]
      rw [forestFoldB (c :: cs2) _ hfinX hfoX hdepX]
      rw [show gatherFold (afterMarker { s with depth := s.depth + 1, found := true, pending := some r } (forestFirstMarker (c :: cs2))) [(Ev.listEnd, 0)]
            = gatherStep (afterMarker { s with depth := s.depth + 1, found := true, pending := some r } (forestFirstMarker (c :: cs2))) (Ev.listEnd, 0)
          from rfl,
          gatherStep_listEnd (hfinY (forestFirstMarker (c :: cs2)))]
      rw [show gatherFold (afterMarker { s with depth := s.depth + 1, found := true, pending := some r } (forestFirstMarker (c :: cs2))) [(Ev.itemEnd, 0)]
            = gatherStep (afterMarker { s with depth := s.depth + 1, found := true, pending := some r } (forestFirstMarker (c :: cs2))) (Ev.itemEnd, 0)
          from rfl,
          gatherStep_itemEnd (hfinY (forestFirstMarker (c :: cs2)))]
      simp only [itemFirstMarker, emitTop, MdItem.rng]
      cases hm : forestFirstMarker (c :: cs2) with
      | none => cases s; simp [afterMarker]
      | some d => cases d <;> cases s <;> simp [afterMarker]

theorem forestFoldTop : ∀ (its : List MdItem) (s : GatherSt),
    s.finished = false → s.depth = 0 →
    ∃ f p, gatherFold s (forestEvents its)
      = { s with found := f, pending := p, todos := s.todos ++ its.filterMap emitTop }
  | [], s, _, _ => ⟨s.found, s.pending, by cases s; simp [forestEvents, gatherFold]⟩
  | i :: is, s, hfin, hd => by
    rw [forestEvents, gatherFold_append, itemFoldC i s hfin hd]
    obtain ⟨f, p, hfold⟩ := forestFoldTop is
      { s with found := (itemFirstMarker i).isNone,
               pending := (if itemFirstMarker i = some false then none else some i.rng),
               todos := s.todos ++ (emitTop i).toList }
      (by simpa using hfin) (by simpa using hd)
    refine ⟨f, p, ?_⟩
    rw [hfold]
    cases hm : emitTop i <;> simp [List.filterMap_cons, hm]

/-- What `gather_open_todos` returns on the event stream of a complete
top-level checklist: for each top-level item, its range, exactly when the
first task marker at or under the item is an open (`[ ]`) one. -/
theorem gatherTodos_topEvents (its : List MdItem) :
    gatherTodos (topEvents its) = its.filterMap emitTop := by
  rw [gatherTodos, gatherRun, topEvents, gatherFold_append, gatherFold_append]
  rw [show gatherFold gatherInit [(Ev.listStart, 0)]
        = gatherStep gatherInit (Ev.listStart, 0) from rfl,
      gatherStep_listStart rfl]
  obtain ⟨f, p, hfold⟩ := forestFoldTop its gatherInit rfl rfl
  rw [hfold]
  rw [show gatherFold { gatherInit with found := f, pending := p, todos := gatherInit.todos ++ its.filterMap emitTop } [(Ev.listEnd, 0)]
        = gatherStep { gatherInit with found := f, pending := p, todos := gatherInit.todos ++ its.filterMap emitTop } (Ev.listEnd, 0)
      from rfl,
      gatherStep_listEnd rfl]
  simp [gatherInit]

/-! ### Membership facts used to settle C1 -/

theorem emitTop_eq_some {i : MdItem} {x : Rng} (h : emitTop i = some x) : x = i.rng := by
  by_cases hfm : itemFirstMarker i = some false <;> simp [emitTop, hfm] at h
  exact h.symm

theorem marker_done_firstMarker {it : MdItem} (h : it.marker = some true) :
    itemFirstMarker it = some true := by
  obtain ⟨r, m, t, cs⟩ := it
  simp [MdItem.marker] at h
  subst h
  rfl

theorem emitTop_of_done {i : MdItem} (h : i.marker = some true) : emitTop i = none := by
  simp [emitTop, marker_done_firstMarker h]

theorem rng_mem_itemRanges (i : MdItem) : i.rng ∈ itemRanges i := by
  obtain ⟨r0, m0, t0, cs0⟩ := i
  simp [itemRanges, MdItem.rng]

theorem mem_filterMap_emitTop : ∀ (its : List MdItem) (x : Rng),
    x ∈ its.filterMap emitTop → x ∈ forestRanges its
  | i :: is, x, hx => by
    rw [forestRanges]
    cases hm : emitTop i with
    | none =>
      rw [List.filterMap_cons_none hm] at hx
      exact List.mem_append_right _ (mem_filterMap_emitTop is x hx)
    | some r =>
      rw [List.filterMap_cons_some hm] at hx
      rcases List.mem_cons.mp hx with hx | hx
      · subst hx
        rw [emitTop_eq_some hm]
        exact List.mem_append_left _ (rng_mem_itemRanges i)
      · exact List.mem_append_right _ (mem_filterMap_emitTop is x hx)

theorem itemRanges_subset_forestRanges : ∀ (its : List MdItem) (it : MdItem),
    it ∈ its → ∀ r, r ∈ itemRanges it → r ∈ forestRanges its
  | i :: is, it, hmem, r, hr => by
    rw [forestRanges]
    rcases List.mem_cons.mp hmem with h | h
    · subst h; exact List.mem_append_left _ hr
    · exact List.mem_append_right _ (itemRanges_subset_forestRanges is it h r hr)

theorem c1_aux : ∀ (its : List MdItem) (it : MdItem),
    it ∈ its → it.marker = some true → (forestRanges its).Nodup →
    ∀ r, r ∈ itemRanges it → r ∉ its.filterMap emitTop
  | i :: is, it, hmem, hdone, hnodup, r, hr => by
    rw [forestRanges, List.nodup_append] at hnodup
    obtain ⟨hn1, hn2, hdisj⟩ := hnodup
    rcases List.mem_cons.mp hmem with h | h
    · subst h
      rw [List.filterMap_cons_none (emitTop_of_done hdone)]
      intro hcon
      exact hdisj hr (mem_filterMap_emitTop is r hcon)
    · cases hm : emitTop i with
      | none =>
        rw [List.filterMap_cons_none hm]
        exact c1_aux is it h hdone hn2 r hr
      | some x =>
        rw [List.filterMap_cons_some hm]
        intro hcon
        rcases List.mem_cons.mp hcon with hx | hx
        · subst hx
          have hri : r ∈ itemRanges i := by
            rw [emitTop_eq_some hm]
            exact rng_mem_itemRanges i
          exact hdisj hri (itemRanges_subset_forestRanges is it h r hr)
        · exact c1_aux is it h hdone hn2 r hr hx

/-- C1: for every markdown checklist (modelled as a forest of items whose
source byte ranges are pairwise distinct, as the ranges that
`pulldown_cmark` attaches to disjoint or strictly nested spans are), a
top-level item whose task marker is done is discarded without emitting
anything: neither its own range (hence its text) nor the range of anything
nested under it ever occurs in the output of `gather_open_todos`. -/
theorem c1_done_top_level_items_never_emitted (its : List MdItem) (it : MdItem)
    (hmem : it ∈ its) (hdone : it.marker = some true)
    (hnodup : (forestRanges its).Nodup) :
    ∀ r, r ∈ itemRanges it → r ∉ gatherTodos (topEvents its) := by
  intro r hr
  rw [gatherTodos_topEvents]
  exact c1_aux its it hmem hdone hnodup r hr

/-- C1 witness: the scenario from the spec — `second` is done and has an
open nested child `second.dot.one`; neither the range of `second` (10) nor
the range of the child (20) is emitted, while `first` and `third` are. -/
theorem c1_witness :
    (20 ∉ gatherTodos (topEvents
      [MdItem.node 1 (some false) "first" [],
       MdItem.node 10 (some true) "second" [MdItem.node 20 (some false) "second.dot.one" []],
       MdItem.node 30 (some false) "third" []]))
    ∧ (10 ∉ gatherTodos (topEvents
      [MdItem.node 1 (some false) "first" [],
       MdItem.node 10 (some true) "second" [MdItem.node 20 (some false) "second.dot.one" []],
       MdItem.node 30 (some false) "third" []])) := by
  refine ⟨?_, ?_⟩ <;>
    exact c1_done_top_level_items_never_emitted
      [MdItem.node 1 (some false) "first" [],
       MdItem.node 10 (some true) "second" [MdItem.node 20 (some false) "second.dot.one" []],
       MdItem.node 30 (some false) "third" []]
      (MdItem.node 10 (some true) "second" [MdItem.node 20 (some false) "second.dot.one" []])
      (List.mem_cons_of_mem _ (List.mem_cons_self _ _)) rfl
      (by simp [forestRanges, itemRanges]) _
      (by simp [itemRanges, forestRanges])

/-! ## Claim C2: what gates the task-marker arm

The source guards the `TaskListMarker` arm with `found_top_level_item`
alone — the nesting depth is *not* consulted.  A marker can therefore fire
at depth 2: a plain top-level bullet (no marker of its own) keeps the flag
armed while its children are processed, and the first task marker of a
child emits the top-level range. -/

/-- C2 counterexample: the checklist `* plain` with nested `* [ ] child`
(ranges 5 and 6).  Just before the child's task marker the extractor is at
depth 2 with the candidate flag still armed, the todo list still empty —
and processing that depth-2 marker emits range 5.  So a task marker
arriving at depth greater than 1 does change the result, contradicting the
claim. -/
theorem c2_counterexample :
    (gatherRun [(Ev.listStart, 0), (Ev.itemStart, 5), (Ev.text "plain", 0),
                (Ev.listStart, 0), (Ev.itemStart, 6)]).depth = 2
    ∧ (gatherRun [(Ev.listStart, 0), (Ev.itemStart, 5), (Ev.text "plain", 0),
                  (Ev.listStart, 0), (Ev.itemStart, 6)]).found = true
    ∧ gatherTodos [(Ev.listStart, 0), (Ev.itemStart, 5), (Ev.text "plain", 0),
                   (Ev.listStart, 0), (Ev.itemStart, 6)] = []
    ∧ gatherTodos [(Ev.listStart, 0), (Ev.itemStart, 5), (Ev.text "plain", 0),
                   (Ev.listStart, 0), (Ev.itemStart, 6), (Ev.taskMarker false, 0)] = [5]
    ∧ gatherTodos (topEvents
        [MdItem.node 5 none "plain" [MdItem.node 6 (some false) "child" []]]) = [5] := by
  refine ⟨by decide, by decide, by decide, by decide, ?_⟩
  simp [topEvents, forestEvents, itemEvents, markerEvents]
  decide

/-- C2 amended: a task-marker event changes the extractor state only when
the pending-candidate flag (`found_top_level_item`) is set; the nesting
depth is never consulted.  With the flag clear the marker is a no-op; with
the flag set — at any depth — a done marker discards the candidate and an
open marker emits the pending top-level range. -/
theorem c2_amended (s : GatherSt) (done : Bool) (r : Rng) :
    (s.found = false → gatherStep s (Ev.taskMarker done, r) = s)
    ∧ (s.found = true → s.finished = false →
        gatherStep s (Ev.taskMarker done, r)
          = if done then { s with found := false }
            else { s with found := false, pending := none, todos := s.todos ++ [s.pending.getD 0] }) := by
  constructor
  · intro hfo
    by_cases hf : s.finished = true
    · exact gatherStep_finished hf _
    · have hf2 : s.finished = false := by simp at hf; exact hf
      exact gatherStep_marker_unarmed hf2 hfo done r
  · intro hfo hf
    cases done
    · simpa using gatherStep_marker_open hf hfo r
    · simpa using gatherStep_marker_done hf hfo r

/-- C2 amended, witness at concrete states of depth 2: with the flag clear
the marker is a no-op, with the flag set an open marker emits the pending
range even though the depth is 2. -/
theorem c2_amended_witness :
    gatherStep { found := false, pending := none, depth := 2, todos := [], finished := false }
        (Ev.taskMarker false, 0)
      = { found := false, pending := none, depth := 2, todos := [], finished := false }
    ∧ gatherStep { found := true, pending := some 5, depth := 2, todos := [], finished := false }
        (Ev.taskMarker false, 0)
      = { found := false, pending := none, depth := 2, todos := [5], finished := false } := by
  constructor
  · exact (c2_amended { found := false, pending := none, depth := 2, todos := [], finished := false } false 0).1 rfl
  · have h := (c2_amended { found := true, pending := some 5, depth := 2, todos := [], finished := false } false 0).2 rfl rfl
    simpa using h

/-! ## Claim C5: absence of a TODOs heading

`find_todo_section` can only return `true` by processing an H2 heading-end
event while in `ProcessedTitle`; we show that for a document with no
level-2 heading titled exactly `"TODOs"` the scan never reaches `success`,
so `process` returns no todos, final state `Done`, and (by its result
type) no error. -/

theorem searchFold_append (s : SearchSt) (a b : List (Ev × Rng)) :
    searchFold s (a ++ b) = searchFold (searchFold s a) b :=
  List.foldl_append ..

theorem searchStep_success (e : Ev) : searchStep .success e = .success := by
  simp [searchStep]

theorem searchFold_success (evs : List (Ev × Rng)) :
    searchFold .success evs = .success := by
  induction evs with
  | nil => rfl
  | cons e rest ih =>
    rw [searchFold, List.foldl_cons, searchStep_success, ← searchFold]
    exact ih

/-- Only an H2 heading-end can move the scan into `success`. -/
theorem searchStep_ne_success {s : SearchSt} (hs : s ≠ .success) {e : Ev}
    (he : ∀ lv, e ≠ Ev.headingEnd lv) : searchStep s e ≠ .success := by
  cases e with
  | headingEnd lv => exact absurd rfl (he lv)
  | headingStart lv =>
    cases s <;> first
      | exact absurd rfl hs
      | (simp [searchStep] <;> split <;> simp)
  | text t =>
    cases s <;> first
      | exact absurd rfl hs
      | (simp [searchStep] <;> split <;> simp)
  | listStart => cases s <;> first | exact absurd rfl hs | simp [searchStep]
  | listEnd => cases s <;> first | exact absurd rfl hs | simp [searchStep]
  | itemStart => cases s <;> first | exact absurd rfl hs | simp [searchStep]
  | itemEnd => cases s <;> first | exact absurd rfl hs | simp [searchStep]
  | taskMarker d => cases s <;> first | exact absurd rfl hs | simp [searchStep]
  | other => cases s <;> first | exact absurd rfl hs | simp [searchStep]

theorem searchFold_safe : ∀ (evs : List (Ev × Rng)) (s : SearchSt), s ≠ .success →
    (∀ er ∈ evs, ∀ lv, er.1 ≠ Ev.headingEnd lv) → searchFold s evs ≠ .success
  | [], s, hs, _ => hs
  | e :: rest, s, hs, hsafe => by
    rw [searchFold, List.foldl_cons, ← searchFold]
    exact searchFold_safe rest _
      (searchStep_ne_success hs (hsafe e (List.mem_cons_self e rest)))
      (fun er her lv => hsafe er (List.mem_cons_of_mem e her) lv)

mutual

theorem itemEvents_no_headingEnd : ∀ (it : MdItem),
    ∀ er ∈ itemEvents it, ∀ lv, er.1 ≠ Ev.headingEnd lv
  | .node r m t cs, er, her, lv => by
    simp only [itemEvents] at her
    rcases List.mem_append.mp her with her | her
    · rcases List.mem_append.mp her with her | her
      · rcases List.mem_append.mp her with her | her
        · rcases List.mem_append.mp her with her | her
          · simp at her; subst her; simp
          · cases m with
            | none => simp [markerEvents] at her
            | some d => simp [markerEvents] at her; subst her; simp
        · simp at her; subst her; simp
      · match cs, her with
        | c :: cs2, her =>
          rcases List.mem_append.mp her with her | her
          · rcases List.mem_append.mp her with her | her
            · simp at her; subst her; simp
            · exact forestEvents_no_headingEnd (c :: cs2) er her lv
          · simp at her; subst her; simp
    · simp at her; subst her; simp

theorem forestEvents_no_headingEnd : ∀ (its : List MdItem),
    ∀ er ∈ forestEvents its, ∀ lv, er.1 ≠ Ev.headingEnd lv
  | i :: is, er, her, lv => by
    rw [forestEvents] at her
    rcases List.mem_append.mp her with her | her
    · exact itemEvents_no_headingEnd i er her lv
    · exact forestEvents_no_headingEnd is er her lv

end

theorem searchStep_headingStart2 {s : SearchSt} (hs : s ≠ .success) :
    searchStep s (Ev.headingStart 2) = .found := by
  cases s <;> first | exact absurd rfl hs | simp [searchStep]

theorem searchStep_headingEnd_ne2 {s : SearchSt} (hs : s ≠ .success) {lv : Nat}
    (hlv : lv ≠ 2) : searchStep s (Ev.headingEnd lv) ≠ .success := by
  cases s <;> first | exact absurd rfl hs | simp [searchStep, hlv]

/-- Scanning the title fragments of a heading from `Found`: when none of
them is exactly `"TODOs"`, the state stays `Found` — the source has no
else branch to disarm on a mismatched text event, so only the absence of a
matching fragment keeps the scan unpromoted. -/
theorem fragFold_found : ∀ (ts : List String), "TODOs" ∉ ts →
    searchFold .found (fragEvents ts) = .found
  | [], _ => rfl
  | t :: ts, hno => by
    have ht : t ≠ "TODOs" := by
      intro h
      exact hno (by rw [← h]; exact List.mem_cons_self t ts)
    rw [fragEvents, searchFold_append]
    have h3 : searchFold .found [(Ev.other, 0), (Ev.text t, 0), (Ev.other, 0)] = .found := by
      simp [searchFold, searchStep, ht]
    rw [h3, fragFold_found ts (fun h => hno (List.mem_cons_of_mem _ h))]

theorem fragEvents_no_headingEnd : ∀ (ts : List String),
    ∀ er ∈ fragEvents ts, ∀ lv, er.1 ≠ Ev.headingEnd lv
  | t :: ts, er, her, lv => by
    rw [fragEvents] at her
    rcases List.mem_append.mp her with her | her
    · simp at her
      rcases her with rfl | rfl | rfl <;> simp
    · exact fragEvents_no_headingEnd ts er her lv

/-- The per-block condition of C5 amended: a level-2 heading must not
contain a title fragment that is exactly `"TODOs"`; other blocks are
unconstrained. -/
def noTodosFragment : Block → Prop
  | .heading lv ts => lv = 2 → "TODOs" ∉ ts
  | _ => True

/-- Scanning one block whose H2 title (if it is an H2 heading) has no
`"TODOs"` fragment cannot reach `success`, from any non-`success` state. -/
theorem searchFold_block (b : Block) (hb : noTodosFragment b)
    (s : SearchSt) (hs : s ≠ .success) :
    searchFold s (blockEvents b) ≠ .success := by
  cases b with
  | heading lv ts =>
    by_cases hlv : lv = 2
    · subst hlv
      have hno : "TODOs" ∉ ts := hb rfl
      rw [show blockEvents (Block.heading 2 ts)
            = [(Ev.headingStart 2, 0)] ++ fragEvents ts ++ [(Ev.headingEnd 2, 0)] from rfl]
      rw [searchFold_append, searchFold_append]
      rw [show searchFold s [(Ev.headingStart 2, 0)] = searchStep s (Ev.headingStart 2) from rfl,
          searchStep_headingStart2 hs]
      rw [fragFold_found ts hno]
      rw [show searchFold SearchSt.found [(Ev.headingEnd 2, 0)]
            = searchStep SearchSt.found (Ev.headingEnd 2) from rfl]
      simp [searchStep]
    · rw [show blockEvents (Block.heading lv ts)
            = ([(Ev.headingStart lv, 0)] ++ fragEvents ts) ++ [(Ev.headingEnd lv, 0)] from rfl]
      rw [searchFold_append]
      have hmid : searchFold s ([(Ev.headingStart lv, 0)] ++ fragEvents ts) ≠ .success := by
        apply searchFold_safe _ _ hs
        intro er her lv2
        rcases List.mem_append.mp her with her | her
        · simp at her; subst her; simp
        · exact fragEvents_no_headingEnd ts er her lv2
      rw [show searchFold (searchFold s ([(Ev.headingStart lv, 0)] ++ fragEvents ts)) [(Ev.headingEnd lv, 0)]
            = searchStep (searchFold s ([(Ev.headingStart lv, 0)] ++ fragEvents ts)) (Ev.headingEnd lv) from rfl]
      exact searchStep_headingEnd_ne2 hmid hlv
  | para ts =>
    apply searchFold_safe _ _ hs
    intro er her lv
    simp only [blockEvents] at her
    rcases List.mem_append.mp her with her | her
    · rcases List.mem_append.mp her with her | her
      · simp at her; subst her; simp
      · rcases List.mem_map.mp her with ⟨t, _, ht⟩
        subst ht; simp
    · simp at her; subst her; simp
  | list its =>
    apply searchFold_safe _ _ hs
    intro er her lv
    simp only [blockEvents, topEvents] at her
    rcases List.mem_append.mp her with her | her
    · rcases List.mem_append.mp her with her | her
      · simp at her; subst her; simp
      · exact forestEvents_no_headingEnd its er her lv
    · simp at her; subst her; simp

theorem searchFold_doc : ∀ (bs : List Block), (∀ b ∈ bs, noTodosFragment b) →
    ∀ (s : SearchSt), s ≠ .success → searchFold s (docEvents bs) ≠ .success
  | [], _, s, hs => hs
  | b :: bs, hall, s, hs => by
    rw [docEvents, searchFold_append]
    exact searchFold_doc bs (fun b2 h => hall b2 (List.mem_cons_of_mem _ h)) _
      (searchFold_block b (hall b (List.mem_cons_self _ _)) s hs)

theorem searchConsume_eq_none : ∀ (evs : List (Ev × Rng)) (s : SearchSt),
    s ≠ .success → searchFold s evs ≠ .success → searchConsume s evs = none
  | [], _, _, _ => rfl
  | e :: rest, s, hs, hfold => by
    rw [searchConsume]
    have hfold2 : searchFold (searchStep s e.1) rest ≠ .success := by
      rw [searchFold, List.foldl_cons] at hfold
      exact hfold
    by_cases h2 : searchStep s e.1 = SearchSt.success
    · exact absurd (h2 ▸ searchFold_success rest) hfold2
    · simp only [h2, if_false]
      exact searchConsume_eq_none rest _ h2 hfold2

/-- C5 counterexample: the document `## *a*TODOs` followed by `* [ ] x`.
Its only level-2 heading has title text `aTODOs` (fragments `"a"` and
`"TODOs"` around the emphasis), not `TODOs` — yet `find_todo_section`
compares each text event separately and never disarms on a mismatch, so
the `"TODOs"` fragment promotes the scan and the heading end starts
collection: the extractor returns the checklist item (range 42) and ends
in the non-terminal state `GettingTodos`, refuting the claim.  The first
conjunct evaluates the block model, the second the same raw event stream
with the emphasis delimiters written out, and the rest record that the
title text is `aTODOs`, not `TODOs`. -/
theorem c5_counterexample :
    processEvents (docEvents
        [Block.heading 2 ["a", "TODOs"],
         Block.list [MdItem.node 42 (some false) "x" []]])
      = ([42], State.GettingTodos)
    ∧ processEvents
        [(Ev.headingStart 2, 0), (Ev.other, 0), (Ev.text "a", 0), (Ev.other, 0),
         (Ev.other, 0), (Ev.text "TODOs", 0), (Ev.other, 0), (Ev.headingEnd 2, 0),
         (Ev.listStart, 0), (Ev.itemStart, 42), (Ev.taskMarker false, 0),
         (Ev.text "x", 0), (Ev.itemEnd, 0), (Ev.listEnd, 0)]
      = ([42], State.GettingTodos)
    ∧ String.join ["a", "TODOs"] = "aTODOs"
    ∧ "aTODOs" ≠ "TODOs" := by
  refine ⟨?_, by decide, by decide, by decide⟩
  simp [docEvents, blockEvents, fragEvents, topEvents, forestEvents, itemEvents,
        markerEvents]
  decide

/-- C5 amended: for every markdown document none of whose level-2 headings
contains a title text fragment that is exactly `"TODOs"` — for a plain,
single-fragment title this is precisely `title text is not "TODOs"` —
`process` returns an empty item list and finishes in the terminal state
`Done`; its result type has no error case, so no error is possible.
(A document whose H2 title merely *contains* a `"TODOs"` fragment, split
off by inline markup, does start collection: see the counterexample.) -/
theorem c5_amended (blocks : List Block)
    (h : ∀ frs, Block.heading 2 frs ∈ blocks → "TODOs" ∉ frs) :
    processEvents (docEvents blocks) = ([], State.Done) := by
  have hall : ∀ b ∈ blocks, noTodosFragment b := by
    intro b hmem
    cases b with
    | heading lv ts =>
      intro hlv
      subst hlv
      exact h ts hmem
    | para ts => trivial
    | list its => trivial
  have hnone : searchConsume .notFound (docEvents blocks) = none :=
    searchConsume_eq_none (docEvents blocks) .notFound (by simp)
      (searchFold_doc blocks hall .notFound (by simp))
  rw [processEvents, hnone]

/-- C5 amended, witness: an H1 heading, a paragraph whose text happens to
be `TODOs` (harmless — no H2 heading end follows while the scan is
promoted), an H2 heading with a two-fragment title, and a checklist: no H2
title fragment is `TODOs`, so no todos and final state `Done`. -/
theorem c5_amended_witness :
    processEvents (docEvents
      [Block.heading 1 ["Something"], Block.para ["TODOs"],
       Block.heading 2 ["Other", "thing"],
       Block.list [MdItem.node 7 (some false) "x" []]]) = ([], State.Done) := by
  apply c5_amended
  intro frs hmem
  simp [List.mem_cons] at hmem
  subst hmem
  decide

/-! ## Reminder engine: dates and weekdays (`src/reminders.rs`)

A `time::Date` is in bijection with its Julian day number
(`Date::to_julian_day`); successor (`Date::next_day`) adds one and the
weekday cycles with period 7.  Julian day 0 falls on a Monday, so the
weekday of Julian day `j` is determined by `j mod 7` with Monday at 0.
We model dates by their Julian day number, a plain `Int`. -/

/-- `time::Weekday`. -/
inductive Weekday where
  | Monday
  | Tuesday
  | Wednesday
  | Thursday
  | Friday
  | Saturday
  | Sunday
  deriving DecidableEq, Repr

/-- Days since Monday, as `time::Weekday::number_days_from_monday`. -/
def Weekday.idx : Weekday → Int
  | .Monday => 0
  | .Tuesday => 1
  | .Wednesday => 2
  | .Thursday => 3
  | .Friday => 4
  | .Saturday => 5
  | .Sunday => 6

/-- `Date::weekday` via the Julian day number. -/
def weekdayOfJulian (j : Int) : Weekday :=
  match (j % 7).toNat with
  | 0 => .Monday
  | 1 => .Tuesday
  | 2 => .Wednesday
  | 3 => .Thursday
  | 4 => .Friday
  | 5 => .Saturday
  | _ => .Sunday

theorem idx_bounds (w : Weekday) : 0 ≤ w.idx ∧ w.idx < 7 := by
  cases w <;> simp [Weekday.idx]

theorem idx_weekdayOfJulian (j : Int) : (weekdayOfJulian j).idx = j % 7 := by
  have h0 : 0 ≤ j % 7 := Int.emod_nonneg j (by norm_num)
  have h7 : j % 7 < 7 := Int.emod_lt_of_pos j (by norm_num)
  unfold weekdayOfJulian
  set k := j % 7 with hk
  interval_cases k <;> simp [Weekday.idx]

theorem idx_inj : ∀ a b : Weekday, a.idx = b.idx → a = b := by
  intro a b h
  cases a <;> cases b <;> first
    | rfl
    | (exfalso; simp [Weekday.idx] at h)

theorem weekdayOfJulian_eq_iff (j : Int) (w : Weekday) :
    weekdayOfJulian j = w ↔ j % 7 = w.idx := by
  constructor
  · intro h
    rw [← h, idx_weekdayOfJulian]
  · intro h
    apply idx_inj
    rw [idx_weekdayOfJulian, h]

/-- The result of Rust code that can panic: either an orderly value or a
panic with its message. -/
inductive PanicOr (α : Type) where
  | panic (msg : String)
  | ok (val : α)
  deriving DecidableEq, Repr

/-- The Julian day number of the maximal representable `time::Date`,
+9999-12-31 (the default feature range of the crate); see
`c9_counterexample` below for the check against the civil-date conversion.
That date falls on a Friday. -/
def maxJulianDay : Int := 5373484

/-- `Date::next_day`: the successor date, or `None` at the maximal
representable date. -/
def nextDay (j : Int) : Option Int :=
  if j = maxJulianDay then none else some (j + 1)

/-- `WeekdayExt::next` for `time::Date` (src/reminders.rs lines 26-38): loop
forward one day at a time until the weekday matches; this is also the
`next_occurrence` operation of the spec.  The loop body is
`next = next.next_day().unwrap()` — when the loop steps off the maximal
representable date, `next_day` is `None` and the `unwrap` panics with the
standard message.  The two else branches below are that body with
`nextDay` unfolded (`nextDay j = none` exactly when `j = maxJulianDay`);
`nextOccurrence_matches_next_day` states the equivalence. -/
def nextOccurrence (j : Int) (w : Weekday) : PanicOr Int :=
  if weekdayOfJulian j = w then .ok j
  else if j = maxJulianDay then .panic "called `Option::unwrap()` on a `None` value"
  else nextOccurrence (j + 1) w
termination_by ((w.idx - j) % 7).toNat
decreasing_by
  rename_i h _hm
  have hne : j % 7 ≠ w.idx := fun hc => h ((weekdayOfJulian_eq_iff j w).mpr hc)
  have hb := idx_bounds w
  omega

theorem nextOccurrence_matches_next_day (j : Int) (w : Weekday)
    (h : ¬ weekdayOfJulian j = w) :
    nextOccurrence j w
      = (match nextDay j with
         | none => PanicOr.panic "called `Option::unwrap()` on a `None` value"
         | some jnext => nextOccurrence jnext w) := by
  unfold nextDay
  by_cases hm : j = maxJulianDay
  · rw [nextOccurrence.eq_def, if_neg h, if_pos hm, if_pos hm]
  · rw [nextOccurrence.eq_def, if_neg h, if_neg hm, if_neg hm]

/-- When the nearest occurrence of the weekday lies within the
representable date range, the loop returns it. -/
theorem nextOccurrence_eq_of_le : ∀ (j : Int) (w : Weekday),
    j + (w.idx - j) % 7 ≤ maxJulianDay →
    nextOccurrence j w = PanicOr.ok (j + (w.idx - j) % 7)
  | j, w, hmax => by
    have hb := idx_bounds w
    by_cases h : weekdayOfJulian j = w
    · have h2 : j % 7 = w.idx := (weekdayOfJulian_eq_iff j w).mp h
      rw [nextOccurrence.eq_def, if_pos h]
      have hz : (w.idx - j) % 7 = 0 := by omega
      rw [hz]
      norm_num
    · have hne : j % 7 ≠ w.idx := fun hc => h ((weekdayOfJulian_eq_iff j w).mpr hc)
      have hd1 : 1 ≤ (w.idx - j) % 7 := by omega
      have hjm : ¬ j = maxJulianDay := by omega
      rw [nextOccurrence.eq_def, if_neg h, if_neg hjm,
          nextOccurrence_eq_of_le (j + 1) w (by omega)]
      congr 1
      omega
termination_by j w _ => ((w.idx - j) % 7).toNat
decreasing_by omega

/-- When the nearest occurrence of the weekday lies past the maximal
representable date (possible only for dates in the final week), the loop
reaches that date without a match and panics on the `unwrap`. -/
theorem nextOccurrence_panic_of_gt : ∀ (j : Int) (w : Weekday),
    j ≤ maxJulianDay → maxJulianDay < j + (w.idx - j) % 7 →
    nextOccurrence j w = PanicOr.panic "called `Option::unwrap()` on a `None` value"
  | j, w, hj, hmax => by
    have hb := idx_bounds w
    by_cases h : weekdayOfJulian j = w
    · have h2 : j % 7 = w.idx := (weekdayOfJulian_eq_iff j w).mp h
      exfalso
      omega
    · have hne : j % 7 ≠ w.idx := fun hc => h ((weekdayOfJulian_eq_iff j w).mpr hc)
      by_cases hm : j = maxJulianDay
      · rw [nextOccurrence.eq_def, if_neg h, if_pos hm]
      · rw [nextOccurrence.eq_def, if_neg h, if_neg hm,
            nextOccurrence_panic_of_gt (j + 1) w (by omega) (by omega)]
termination_by j w _ _ => ((w.idx - j) % 7).toNat
decreasing_by omega

/-- C9 amended: for every date `from` and weekday `w` whose nearest
occurrence on or after `from` (that is, `from + ((idx w - from) mod 7)`
days) is still a representable date, `next(from, w)` returns `from` itself
when `from` falls on `w` and otherwise the nearest strictly later date
falling on `w`, examining at most 7 dates (the result is at most `from + 6`).
When the nearest occurrence would fall past +9999-12-31 — possible only
for dates in the final week of year 9999 — the loop panics on
`next_day().unwrap()` instead of returning a date. -/
theorem c9_amended (j : Int) (w : Weekday) :
    (j + (w.idx - j) % 7 ≤ maxJulianDay →
      nextOccurrence j w = PanicOr.ok (j + (w.idx - j) % 7)
      ∧ (weekdayOfJulian j = w → j + (w.idx - j) % 7 = j)
      ∧ (weekdayOfJulian j ≠ w → j < j + (w.idx - j) % 7)
      ∧ j + (w.idx - j) % 7 ≤ j + 6
      ∧ weekdayOfJulian (j + (w.idx - j) % 7) = w
      ∧ (∀ k, j ≤ k → k < j + (w.idx - j) % 7 → weekdayOfJulian k ≠ w))
    ∧ (j ≤ maxJulianDay → maxJulianDay < j + (w.idx - j) % 7 →
      nextOccurrence j w = PanicOr.panic "called `Option::unwrap()` on a `None` value") := by
  have hb := idx_bounds w
  constructor
  · intro hmax
    refine ⟨nextOccurrence_eq_of_le j w hmax, ?_, ?_, ?_, ?_, ?_⟩
    · intro h
      have h2 : j % 7 = w.idx := (weekdayOfJulian_eq_iff j w).mp h
      omega
    · intro h
      have hne : j % 7 ≠ w.idx := fun hc => h ((weekdayOfJulian_eq_iff j w).mpr hc)
      omega
    · omega
    · rw [weekdayOfJulian_eq_iff]
      omega
    · intro k hk1 hk2
      rw [ne_eq, weekdayOfJulian_eq_iff]
      omega
  · exact nextOccurrence_panic_of_gt j w

/-- C9 amended, witness: from Thursday Julian day 3 the next Monday is day
7 (in range, a Monday); from the last Monday of year 9999 (Julian day
5373480) asking for a Sunday panics, since no Sunday remains in range. -/
theorem c9_amended_witness :
    nextOccurrence 3 Weekday.Monday = PanicOr.ok 7
    ∧ weekdayOfJulian 7 = Weekday.Monday
    ∧ nextOccurrence 5373480 Weekday.Sunday
        = PanicOr.panic "called `Option::unwrap()` on a `None` value" := by
  have h1 := (c9_amended 3 Weekday.Monday).1 (by decide)
  have h2 := (c9_amended 5373480 Weekday.Sunday).2 (by decide) (by decide)
  refine ⟨?_, by decide, h2⟩
  rw [h1.1]
  decide

/-! ## Reminder store (`src/reminders.rs`)

`Reminders` wraps a `Vec<InnerReminder>`; reminders carry either a
concrete date or a recurring schedule.  Dates are Julian day numbers. -/

/-- `enum Period`. -/
inductive Period where
  | Days
  | Weeks
  deriving DecidableEq, Repr

/-- `enum RepeatingDate`. -/
inductive RepeatingDate where
  | Weekday (w : Weekday)
  | Periodic (amount : Nat) (period : Period)
  deriving DecidableEq, Repr

/-- `enum InnerReminder`. -/
inductive InnerReminder where
  | Concrete (date : Int) (reminder : String)
  | Recurring (start : Int) (interval : RepeatingDate) (reminder : String)
  deriving DecidableEq, Repr

/-- The i32 period length used by `Mul<&Period> for &usize`
(src/reminders.rs lines 441-452): 1 day or 7 days. -/
def periodDays : Period → Int
  | .Days => 1
  | .Weeks => 7

/-- Wrap an integer into the i32 two-complement range, as release-profile
Rust arithmetic does (a debug build would panic on the overflow instead). -/
def wrapI32 (n : Int) : Int := (n + 2 ^ 31) % 2 ^ 32 - 2 ^ 31

/-- `(*self as i32) * rhs` of `Mul<&Period> for &usize`: the usize amount
is truncated to i32 by the cast and the multiplication is i32 arithmetic. -/
def amountTimesPeriod (amount : Nat) (p : Period) : Int :=
  wrapI32 (wrapI32 (amount : Int) * periodDays p)

/-- One iteration of the `Reminders::for_today` loop (src/reminders.rs
lines 248-284) on one stored reminder: push the reminder text when it is
due today.  For a `Periodic` interval the source computes
`difference % interval_in_days` with i32 `%` (truncated remainder,
`Int.tmod`); when `interval_in_days` is zero that `%` panics with a
division by zero, modelled as `none`.  (`difference` itself is a
difference of Julian day numbers of valid dates, well inside i32 range.) -/
def dueStep (today : Int) (reminders : List String) : InnerReminder → Option (List String)
  | .Concrete date reminder =>
    some (if today = date then reminders ++ [reminder] else reminders)
  | .Recurring start interval reminder =>
    match interval with
    | .Weekday w =>
      some (if weekdayOfJulian today = w then reminders ++ [reminder] else reminders)
    | .Periodic amount period =>
      let intervalInDays := amountTimesPeriod amount period
      let difference := today - start
      if intervalInDays = 0 then none
      else some (if difference.tmod intervalInDays = 0 then reminders ++ [reminder] else reminders)

def forTodayAux (today : Int) (reminders : List String) :
    List InnerReminder → Option (List String)
  | [] => some reminders
  | r :: rest =>
    match dueStep today reminders r with
    | none => none
    | some reminders2 => forTodayAux today reminders2 rest

/-- `Reminders::for_today`: the texts of the reminders due today, in store
order; `none` models the panic on a zero periodic interval. -/
def forToday (today : Int) (stored : List InnerReminder) : Option (List String) :=
  forTodayAux today [] stored

/-- C3 counterexample: the parseable amount 613566757 with unit weeks gives
`amount * 7 = 4294967299 = 2^32 + 3`, which the i32 multiplication wraps to
3, so the reminder is reported due 3 days after its anchor even though 3 is
not divisible by `amount * 7` (in a debug build the same multiplication
panics instead).  So due-ness is not equivalent to divisibility by
`amount * unit_length` for every `Periodic` reminder. -/
theorem c3_counterexample :
    forToday 3 [InnerReminder.Recurring 0 (RepeatingDate.Periodic 613566757 Period.Weeks) "x"]
      = some ["x"]
    ∧ ¬ ((613566757 * 7 : Int) ∣ (3 - 0 : Int)) := by
  constructor
  · decide
  · rintro ⟨k, hk⟩
    omega

/-- C3 amended: for a `Recurring` reminder with `Periodic{amount, unit}`
anchored at `start`, whenever `amount` is positive and
`amount * unit_length` fits in i32 (`≤ 2^31 - 1` — larger products wrap in
release builds and panic in debug builds, see the counterexample),
`for_today(date)` reports the reminder due exactly when the truncated
remainder of the signed day distance by `amount * unit_length` is zero,
i.e. exactly when `amount * unit_length` divides the signed day distance;
in particular for `amount = 2, unit = Weeks` it is due at the anchor `A`,
at `A+14`, `A+28`, and not due at `A+7`, `A+21`. -/
theorem c3_amended (amount : Nat) (unit : Period) (today start : Int) (text : String)
    (hpos : 0 < amount)
    (hbound : (amount : Int) * periodDays unit ≤ 2 ^ 31 - 1) :
    (forToday today [InnerReminder.Recurring start (RepeatingDate.Periodic amount unit) text]
      = some (if (today - start).tmod ((amount : Int) * periodDays unit) = 0 then [text] else []))
    ∧ ((today - start).tmod ((amount : Int) * periodDays unit) = 0
        ↔ ((amount : Int) * periodDays unit) ∣ (today - start))
    ∧ (∀ (A : Int) (t2 : String),
        forToday A [InnerReminder.Recurring A (RepeatingDate.Periodic 2 Period.Weeks) t2] = some [t2]
        ∧ forToday (A + 14) [InnerReminder.Recurring A (RepeatingDate.Periodic 2 Period.Weeks) t2] = some [t2]
        ∧ forToday (A + 28) [InnerReminder.Recurring A (RepeatingDate.Periodic 2 Period.Weeks) t2] = some [t2]
        ∧ forToday (A + 7) [InnerReminder.Recurring A (RepeatingDate.Periodic 2 Period.Weeks) t2] = some []
        ∧ forToday (A + 21) [InnerReminder.Recurring A (RepeatingDate.Periodic 2 Period.Weeks) t2] = some []) := by
  have hpd : periodDays unit = 1 ∨ periodDays unit = 7 := by
    cases unit <;> simp [periodDays]
  have hI : amountTimesPeriod amount unit = (amount : Int) * periodDays unit := by
    have hof : (amount : Int) ≤ 2 ^ 31 - 1 := by
      rcases hpd with h | h <;> rw [h] at hbound <;> omega
    have h1 : wrapI32 (amount : Int) = (amount : Int) := by
      unfold wrapI32
      omega
    rw [amountTimesPeriod, h1]
    unfold wrapI32
    rcases hpd with h | h <;> rw [h] <;> rw [h] at hbound <;> omega
  have hIne : ¬ ((amount : Int) * periodDays unit = 0) := by
    rcases hpd with h | h <;> rw [h] <;> omega
  have hiff : ∀ a b : Int, a.tmod b = 0 ↔ b ∣ a := by
    intro a b
    exact Iff.symm Int.dvd_iff_tmod_eq_zero
  refine ⟨?_, (hiff _ _), ?_⟩
  · rw [forToday, forTodayAux, dueStep]
    simp only [hI, if_neg hIne]
    rfl
  · intro A t2
    have h2w : amountTimesPeriod 2 Period.Weeks = 14 := by decide
    refine ⟨?_, ?_, ?_, ?_, ?_⟩ <;>
      · rw [forToday, forTodayAux, dueStep]
        simp only [h2w]
        norm_num
        try rfl

/-- C3 amended, witness: a 2-weekly reminder anchored at Julian day 0 is
due on day 14 and not due on day 7. -/
theorem c3_amended_witness :
    forToday 14 [InnerReminder.Recurring 0 (RepeatingDate.Periodic 2 Period.Weeks) "x"] = some ["x"]
    ∧ forToday 7 [InnerReminder.Recurring 0 (RepeatingDate.Periodic 2 Period.Weeks) "x"] = some [] := by
  have h14 := (c3_amended 2 Period.Weeks 14 0 "x" (by norm_num) (by simp [periodDays])).1
  have h7 := (c3_amended 2 Period.Weeks 7 0 "x" (by norm_num) (by simp [periodDays])).1
  constructor
  · rw [h14]; decide
  · rw [h7]; decide

/-! ## Date/interval parsing (`src/reminders.rs` lines 352-476) -/

/-- `parse_weekday` (lines 384-396), an exact string match.  Note the
source accepts only the listed casings, and the lowercase full name for
Wednesday is the misspelling `"wedneday"`. -/
def parse_weekday (s : String) : Except String Weekday :=
  if s = "Monday" ∨ s = "Mon" ∨ s = "monday" ∨ s = "mon" then .ok .Monday
  else if s = "Tuesday" ∨ s = "Tue" ∨ s = "tuesday" ∨ s = "tue" then .ok .Tuesday
  else if s = "Wednesday" ∨ s = "Wed" ∨ s = "wedneday" ∨ s = "wed" then .ok .Wednesday
  else if s = "Thursday" ∨ s = "Thu" ∨ s = "thursday" ∨ s = "thu" then .ok .Thursday
  else if s = "Friday" ∨ s = "Fri" ∨ s = "friday" ∨ s = "fri" then .ok .Friday
  else if s = "Saturday" ∨ s = "Sat" ∨ s = "saturday" ∨ s = "sat" then .ok .Saturday
  else if s = "Sunday" ∨ s = "Sun" ∨ s = "sunday" ∨ s = "sun" then .ok .Sunday
  else .error ("No matching day of the week: " ++ s)

/-- The numeric value of a string of ASCII digits. -/
def digitsToNat (acc : Nat) : List Char → Nat
  | [] => acc
  | c :: rest => digitsToNat (acc * 10 + (c.toNat - 48)) rest

/-- `str::parse` for an unsigned integer type whose maximum value is
`maxVal` (`u8`: 255; `usize`: `2^64 - 1`): optional leading `+`, one or
more ASCII digits, range check.  Error strings are the `ParseIntError`
display texts the source propagates via `e.to_string()`. -/
def parseUnsigned (maxVal : Nat) (s : String) : Except String Nat :=
  match s.data with
  | [] => .error "cannot parse integer from empty string"
  | c :: cs =>
    let digits := if c = '+' then cs else c :: cs
    if digits.isEmpty || !digits.all Char.isDigit then .error "invalid digit found in string"
    else
      let v := digitsToNat 0 digits
      if v ≤ maxVal then .ok v else .error "number too large to fit in target type"

/-- `str::parse::<i32>` (for the year component): optional sign, digits,
i32 range check. -/
def parseI32 (s : String) : Except String Int :=
  match s.data with
  | [] => .error "cannot parse integer from empty string"
  | c :: cs =>
    let digits := if c = '-' ∨ c = '+' then cs else c :: cs
    if digits.isEmpty || !digits.all Char.isDigit then .error "invalid digit found in string"
    else
      let v := digitsToNat 0 digits
      if c = '-' then
        if v ≤ 2 ^ 31 then .ok (-(v : Int)) else .error "number too small to fit in target type"
      else
        if v ≤ 2 ^ 31 - 1 then .ok (v : Int) else .error "number too large to fit in target type"

def splitOnceAux (c : Char) (acc : List Char) : List Char → Option (List Char × List Char)
  | [] => none
  | ch :: rest => if ch = c then some (acc, rest) else splitOnceAux c (acc ++ [ch]) rest

/-- Rust `str::split_once` at the first dot; `none` when the string
contains no dot. -/
def splitOnceDot (s : String) : Option (String × String) :=
  match splitOnceAux '.' [] s.data with
  | none => none
  | some (l, r) => some (String.mk l, String.mk r)

/-- `FromStr for RepeatingDate` (lines 454-476): first try a weekday name,
then `<amount>.<unit>` with unit `days` or `weeks`. -/
def RepeatingDate.from_str (s : String) : Except String RepeatingDate :=
  match parse_weekday s with
  | .ok w => .ok (.Weekday w)
  | .error _ =>
    match splitOnceDot s with
    | some (digits, period) =>
      match parseUnsigned (2 ^ 64 - 1) digits with
      | .error e => .error e
      | .ok amount =>
        match period with
        | "days" => .ok (.Periodic amount .Days)
        | "weeks" => .ok (.Periodic amount .Weeks)
        | _ => .error ("unknown period: " ++ period)
    | none => .error ("Unrecognized format for repeating date: " ++ s)

/-- C10: `RepeatingDate::from_str` accepts `"0.days"`, producing
`Periodic{amount: 0, unit: Days}` (the usize parse has no positivity
check), and evaluating `for_today` for any reminder carrying that interval
reaches `difference % 0` — a division by zero, i.e. a panic (`none`) — so
due-evaluation is not total over parseable intervals. -/
theorem c10_zero_interval :
    RepeatingDate.from_str "0.days" = Except.ok (RepeatingDate.Periodic 0 Period.Days)
    ∧ ∀ (today start : Int) (text : String),
        forToday today [InnerReminder.Recurring start (RepeatingDate.Periodic 0 Period.Days) text]
          = none := by
  constructor
  · rfl
  · intro today start text
    rfl

/-- `Reminders::delete` (src/reminders.rs lines 315-324).  `nr` is the
`u32` the user typed; `(nr - 1) as usize` wraps the u32 subtraction in a
release build (a debug build panics on the underflow at `nr = 0`) and then
widens to usize; `Vec::remove` is `List.eraseIdx`; out of range reports
`nr + 1` recomputed from the already-decremented index. -/
def Reminders.delete (nr : Nat) (stored : List InnerReminder) :
    Except String (List InnerReminder) :=
  let idx := (nr + (2 ^ 32 - 1)) % 2 ^ 32
  if idx < stored.length then .ok (stored.eraseIdx idx)
  else .error ("There is no reminder \x27" ++ toString (idx + 1) ++ "\x27")

/-- C4: evaluating `delete` on a two-element store.  Positions 1 and 2
succeed and remove exactly the addressed element, position 3 errors naming
3 — but position 0, which the claim requires to error naming 0, underflows
the u32 subtraction: in a release build the index wraps to 4294967295 and
the error names 4294967296; in a debug build the subtraction panics. -/
theorem c4_delete_eval :
    Reminders.delete 1 [InnerReminder.Concrete 0 "a", InnerReminder.Concrete 1 "b"]
      = Except.ok [InnerReminder.Concrete 1 "b"]
    ∧ Reminders.delete 2 [InnerReminder.Concrete 0 "a", InnerReminder.Concrete 1 "b"]
      = Except.ok [InnerReminder.Concrete 0 "a"]
    ∧ Reminders.delete 3 [InnerReminder.Concrete 0 "a", InnerReminder.Concrete 1 "b"]
      = Except.error "There is no reminder \x273\x27"
    ∧ Reminders.delete 0 [InnerReminder.Concrete 0 "Awesome"]
      = Except.error "There is no reminder \x274294967296\x27" := by
  refine ⟨rfl, rfl, rfl, rfl⟩

/-! ## Calendar dates (`time::Date` year/month/day view) -/

/-- `time::Month`. -/
inductive Month where
  | January
  | February
  | March
  | April
  | May
  | June
  | July
  | August
  | September
  | October
  | November
  | December
  deriving DecidableEq, Repr

/-- `time::util::is_leap_year` (standard Gregorian rule; the source uses
the equivalent `% 25` / `% 16` formulation; Rust `%` and this `%` agree on
the divisibility tests used here). -/
def isLeapYear (y : Int) : Bool :=
  y % 4 = 0 && (y % 100 ≠ 0 || y % 400 = 0)

/-- `time::util::days_in_year_month`. -/
def daysInMonth (y : Int) (m : Month) : Nat :=
  match m with
  | .January => 31
  | .February => if isLeapYear y then 29 else 28
  | .March => 31
  | .April => 30
  | .May => 31
  | .June => 30
  | .July => 31
  | .August => 31
  | .September => 30
  | .October => 31
  | .November => 30
  | .December => 31

/-- A calendar date as year/month/day.  `time::Date` stores a validated
date; we keep the raw triple and validate in `fromCalendarDate`. -/
structure CalDate where
  year : Int
  month : Month
  day : Nat
  deriving DecidableEq, Repr

/-- `Date::from_calendar_date`: the year must be within ±9999 (the default
feature range of the crate) and the day must fit the month; errors are
`ComponentRange` values, summarised here by a short message. -/
def fromCalendarDate (y : Int) (m : Month) (d : Nat) : Except String CalDate :=
  if y < -9999 ∨ 9999 < y then .error "year out of range"
  else if 1 ≤ d ∧ d ≤ daysInMonth y m then .ok ⟨y, m, d⟩
  else .error "day out of range"

/-- `enum SpecificDate`. -/
inductive SpecificDate where
  | Next (w : Weekday)
  | OnDate (date : CalDate)
  | OnDayMonth (day : Nat) (month : Month)
  deriving DecidableEq, Repr

def monthNumber : Month → Int
  | .January => 1
  | .February => 2
  | .March => 3
  | .April => 4
  | .May => 5
  | .June => 6
  | .July => 7
  | .August => 8
  | .September => 9
  | .October => 10
  | .November => 11
  | .December => 12

def monthOfNumber (n : Int) : Month :=
  if n = 1 then .January
  else if n = 2 then .February
  else if n = 3 then .March
  else if n = 4 then .April
  else if n = 5 then .May
  else if n = 6 then .June
  else if n = 7 then .July
  else if n = 8 then .August
  else if n = 9 then .September
  else if n = 10 then .October
  else if n = 11 then .November
  else .December

/-- `Date::to_julian_day` (standard civil-to-Julian-day conversion; the
Julian day of 1970-01-01 is 2440588). -/
def calToJulian (c : CalDate) : Int :=
  let m := monthNumber c.month
  let y := if m ≤ 2 then c.year - 1 else c.year
  let era := Int.fdiv y 400
  let yoe := y - era * 400
  let mp := (m + 9) % 12
  let doy := (153 * mp + 2) / 5 + (c.day : Int) - 1
  let doe := yoe * 365 + yoe / 4 - yoe / 100 + doy
  era * 146097 + doe - 719468 + 2440588

/-- `Date::from_julian_day` (standard Julian-day-to-civil conversion). -/
def julianToCal (j : Int) : CalDate :=
  let z := j - 2440588 + 719468
  let era := Int.fdiv z 146097
  let doe := z - era * 146097
  let yoe := (doe - doe / 1460 + doe / 36524 - doe / 146096) / 365
  let y := yoe + era * 400
  let doy := doe - (365 * yoe + yoe / 4 - yoe / 100)
  let mp := (5 * doy + 2) / 153
  let d := doy - (153 * mp + 2) / 5 + 1
  let m := if mp < 10 then mp + 3 else mp - 9
  ⟨if m ≤ 2 then y + 1 else y, monthOfNumber m, d.toNat⟩

/-- C9 counterexample: the maximal representable date +9999-12-31 (Julian
day 5373484, as the civil-date conversion confirms) falls on a Friday;
asking for the next Monday from it makes the loop step off the calendar,
so `next_day().unwrap()` panics — `next` does not return the nearest later
Monday for this input date, refuting the for-every-date claim. -/
theorem c9_counterexample :
    calToJulian { year := 9999, month := Month.December, day := 31 } = maxJulianDay
    ∧ weekdayOfJulian maxJulianDay = Weekday.Friday
    ∧ nextOccurrence maxJulianDay Weekday.Monday
        = PanicOr.panic "called `Option::unwrap()` on a `None` value" := by
  refine ⟨by decide, by decide, ?_⟩
  rw [nextOccurrence.eq_def, if_neg (by decide), if_pos rfl]

/-- `SpecificDate::next_date` (src/reminders.rs lines 341-350).  The
`OnDayMonth` arm calls `Date::from_calendar_date(current.year(), month,
day)` and unwraps it with `.expect("Day should have existed")` — an
invalid day/month for the reference year is a panic, not an error value.
The `Next` arm is `current.next(weekday)`, i.e. `nextOccurrence` on the
Julian day number. -/
def SpecificDate.next_date (sd : SpecificDate) (current : CalDate) : PanicOr CalDate :=
  match sd with
  | .OnDate date => .ok date
  | .OnDayMonth day month =>
    match fromCalendarDate current.year month day with
    | .ok date => .ok date
    | .error _ => .panic "Day should have existed"
  | .Next w =>
    match nextOccurrence (calToJulian current) w with
    | .ok jnext => .ok (julianToCal jnext)
    | .panic msg => .panic msg

/-- C8 counterexample: resolving `OnDayMonth(30, February)` against a
reference date in 2021 panics with the `expect` message — the code does
not surface a date-construction error value. -/
theorem c8_counterexample :
    SpecificDate.next_date (SpecificDate.OnDayMonth 30 Month.February)
        { year := 2021, month := Month.June, day := 10 }
      = PanicOr.panic "Day should have existed" := by
  decide

/-- C8 amended: for `OnDayMonth(d, m)` and a reference date (whose year is
in the representable range, as every constructed `time::Date` year is),
resolving yields that day and month in the reference year when the
combination is a valid calendar date, and otherwise panics via
`.expect("Day should have existed")` instead of returning a
date-construction error value. -/
theorem c8_amended (day : Nat) (month : Month) (ref : CalDate)
    (hyear : -9999 ≤ ref.year ∧ ref.year ≤ 9999) :
    (1 ≤ day ∧ day ≤ daysInMonth ref.year month →
      SpecificDate.next_date (SpecificDate.OnDayMonth day month) ref
        = PanicOr.ok { year := ref.year, month := month, day := day })
    ∧ (¬ (1 ≤ day ∧ day ≤ daysInMonth ref.year month) →
      SpecificDate.next_date (SpecificDate.OnDayMonth day month) ref
        = PanicOr.panic "Day should have existed") := by
  have hy : ¬ (ref.year < -9999 ∨ 9999 < ref.year) := by omega
  constructor
  · intro hday
    rw [SpecificDate.next_date]
    rw [fromCalendarDate, if_neg hy, if_pos hday]
  · intro hday
    rw [SpecificDate.next_date]
    rw [fromCalendarDate, if_neg hy, if_neg hday]

/-- C8 amended, witness: `OnDayMonth(9, December)` against 2021-12-07
resolves to 2021-12-09; `OnDayMonth(30, February)` against the same
reference panics. -/
theorem c8_amended_witness :
    SpecificDate.next_date (SpecificDate.OnDayMonth 9 Month.December)
        { year := 2021, month := Month.December, day := 7 }
      = PanicOr.ok { year := 2021, month := Month.December, day := 9 }
    ∧ SpecificDate.next_date (SpecificDate.OnDayMonth 30 Month.February)
        { year := 2021, month := Month.December, day := 7 }
      = PanicOr.panic "Day should have existed" :=
  ⟨(c8_amended 9 Month.December { year := 2021, month := Month.December, day := 7 }
      (by norm_num)).1 (by norm_num [daysInMonth]),
   (c8_amended 30 Month.February { year := 2021, month := Month.December, day := 7 }
      (by norm_num)).2 (by norm_num [daysInMonth, isLeapYear])⟩

/-! ## `SpecificDate` parsing -/

/-- `parse_month` (src/reminders.rs lines 398-415), an exact string match
over the capitalized and lowercase full names and 3-letter abbreviations. -/
def parse_month (s : String) : Except String Month :=
  if s = "January" ∨ s = "Jan" ∨ s = "january" ∨ s = "jan" then .ok .January
  else if s = "February" ∨ s = "Feb" ∨ s = "february" ∨ s = "feb" then .ok .February
  else if s = "March" ∨ s = "Mar" ∨ s = "march" ∨ s = "mar" then .ok .March
  else if s = "April" ∨ s = "Apr" ∨ s = "april" ∨ s = "apr" then .ok .April
  else if s = "May" ∨ s = "may" then .ok .May
  else if s = "June" ∨ s = "Jun" ∨ s = "june" ∨ s = "jun" then .ok .June
  else if s = "July" ∨ s = "Jul" ∨ s = "july" ∨ s = "jul" then .ok .July
  else if s = "August" ∨ s = "Aug" ∨ s = "august" ∨ s = "aug" then .ok .August
  else if s = "September" ∨ s = "Sep" ∨ s = "september" ∨ s = "sep" then .ok .September
  else if s = "October" ∨ s = "Oct" ∨ s = "october" ∨ s = "oct" then .ok .October
  else if s = "November" ∨ s = "Nov" ∨ s = "november" ∨ s = "nov" then .ok .November
  else if s = "December" ∨ s = "Dec" ∨ s = "december" ∨ s = "dec" then .ok .December
  else .error ("No matching month name: " ++ s)

/-- Rust `str::split` on the dot character, collected, at the character
level (an empty string yields one empty component, as in Rust). -/
def splitChars (c : Char) : List Char → List (List Char)
  | [] => [[]]
  | ch :: rest =>
    let r := splitChars c rest
    if ch = c then [] :: r
    else
      match r with
      | [] => [[ch]]
      | g :: gs => (ch :: g) :: gs

def splitAllDot (s : String) : List String :=
  (splitChars '.' s.data).map (fun l => String.mk l)

/-- `FromStr for SpecificDate` (src/reminders.rs lines 352-382): split on
dots; three components parse as `day.month.year` into `OnDate`, two as
`day.month` into `OnDayMonth`, one as a weekday into `Next`; anything else
is the grammar error (with `day.monty.year` as the source spells it). -/
def SpecificDate.from_str (s : String) : Except String SpecificDate :=
  match splitAllDot s with
  | [day, month, year] =>
    match parseUnsigned 255 day with
    | .error e => .error e
    | .ok d =>
      match parse_month month with
      | .error e => .error e
      | .ok m =>
        match parseI32 year with
        | .error e => .error e
        | .ok y =>
          match fromCalendarDate y m d with
          | .error e => .error e
          | .ok date => .ok (.OnDate date)
  | [day, month] =>
    match parseUnsigned 255 day with
    | .error e => .error e
    | .ok d =>
      match parse_month month with
      | .error e => .error e
      | .ok m => .ok (.OnDayMonth d m)
  | [weekday] =>
    match parse_weekday weekday with
    | .error e => .error e
    | .ok w => .ok (.Next w)
  | _ =>
    .error "No matching date format found. Use day.month or day.monty.year or weekday."

/-- C7 counterexample: `parse_weekday` is an exact match on the listed
casings, so the all-caps full name errors; the correctly spelt lowercase
full name `"wednesday"` errors too, because the source lists the
misspelling `"wedneday"`. -/
theorem c7_counterexample :
    SpecificDate.from_str "WEDNESDAY"
      = Except.error "No matching day of the week: WEDNESDAY"
    ∧ SpecificDate.from_str "wednesday"
      = Except.error "No matching day of the week: wednesday" := by
  exact ⟨rfl, rfl⟩

/-- C7 amended: `SpecificDate::parse` on a bare weekday name succeeds with
`Next(weekday)` exactly for the casings the source lists: the capitalized
full name, the capitalized 3-letter abbreviation, the lowercase 3-letter
abbreviation, and the lowercase full name — except that for Wednesday the
accepted lowercase full form is the misspelling `"wedneday"`; other
casings (e.g. all-caps, or the correctly spelt `"wednesday"`) are errors
naming the offending string. -/
theorem c7_amended :
    SpecificDate.from_str "Monday" = Except.ok (SpecificDate.Next Weekday.Monday)
    ∧ SpecificDate.from_str "Mon" = Except.ok (SpecificDate.Next Weekday.Monday)
    ∧ SpecificDate.from_str "monday" = Except.ok (SpecificDate.Next Weekday.Monday)
    ∧ SpecificDate.from_str "mon" = Except.ok (SpecificDate.Next Weekday.Monday)
    ∧ SpecificDate.from_str "Tuesday" = Except.ok (SpecificDate.Next Weekday.Tuesday)
    ∧ SpecificDate.from_str "Tue" = Except.ok (SpecificDate.Next Weekday.Tuesday)
    ∧ SpecificDate.from_str "tuesday" = Except.ok (SpecificDate.Next Weekday.Tuesday)
    ∧ SpecificDate.from_str "tue" = Except.ok (SpecificDate.Next Weekday.Tuesday)
    ∧ SpecificDate.from_str "Wednesday" = Except.ok (SpecificDate.Next Weekday.Wednesday)
    ∧ SpecificDate.from_str "Wed" = Except.ok (SpecificDate.Next Weekday.Wednesday)
    ∧ SpecificDate.from_str "wedneday" = Except.ok (SpecificDate.Next Weekday.Wednesday)
    ∧ SpecificDate.from_str "wed" = Except.ok (SpecificDate.Next Weekday.Wednesday)
    ∧ SpecificDate.from_str "Thursday" = Except.ok (SpecificDate.Next Weekday.Thursday)
    ∧ SpecificDate.from_str "Thu" = Except.ok (SpecificDate.Next Weekday.Thursday)
    ∧ SpecificDate.from_str "thursday" = Except.ok (SpecificDate.Next Weekday.Thursday)
    ∧ SpecificDate.from_str "thu" = Except.ok (SpecificDate.Next Weekday.Thursday)
    ∧ SpecificDate.from_str "Friday" = Except.ok (SpecificDate.Next Weekday.Friday)
    ∧ SpecificDate.from_str "Fri" = Except.ok (SpecificDate.Next Weekday.Friday)
    ∧ SpecificDate.from_str "friday" = Except.ok (SpecificDate.Next Weekday.Friday)
    ∧ SpecificDate.from_str "fri" = Except.ok (SpecificDate.Next Weekday.Friday)
    ∧ SpecificDate.from_str "Saturday" = Except.ok (SpecificDate.Next Weekday.Saturday)
    ∧ SpecificDate.from_str "Sat" = Except.ok (SpecificDate.Next Weekday.Saturday)
    ∧ SpecificDate.from_str "saturday" = Except.ok (SpecificDate.Next Weekday.Saturday)
    ∧ SpecificDate.from_str "sat" = Except.ok (SpecificDate.Next Weekday.Saturday)
    ∧ SpecificDate.from_str "Sunday" = Except.ok (SpecificDate.Next Weekday.Sunday)
    ∧ SpecificDate.from_str "Sun" = Except.ok (SpecificDate.Next Weekday.Sunday)
    ∧ SpecificDate.from_str "sunday" = Except.ok (SpecificDate.Next Weekday.Sunday)
    ∧ SpecificDate.from_str "sun" = Except.ok (SpecificDate.Next Weekday.Sunday)
    ∧ SpecificDate.from_str "wednesday"
        = Except.error "No matching day of the week: wednesday"
    ∧ SpecificDate.from_str "WEDNESDAY"
        = Except.error "No matching day of the week: WEDNESDAY" := by
  exact ⟨rfl, rfl, rfl, rfl, rfl, rfl, rfl, rfl, rfl, rfl, rfl, rfl, rfl, rfl, rfl,
         rfl, rfl, rfl, rfl, rfl, rfl, rfl, rfl, rfl, rfl, rfl, rfl, rfl, rfl, rfl⟩

end Journal
